import Mathlib

/-!
Verification development for the StudySync concurrent-document core:
the session attendance operations (`handleJoinSession`, `handleLeaveSession`
in `app/studysessions.tsx`) and the location-rating aggregate operations
(`addOrUpdateRating`, `getTopRatedLocations` in `utils/locationRatings.ts`).
The Firestore documents are embedded as explicit Lean values, the transaction
bodies as pure mutation functions, and the store as a versioned cell.
-/

namespace StudySync

/-- The slice of a Firestore session document read and written by the
join/leave transactions: the `attendees` array of user ids, the optional
numeric `capacity` field, and the `isFull` flag. -/
structure SessionDoc where
  attendees : List String
  capacity : Option Int
  isFull : Bool
deriving DecidableEq

/-- JavaScript truthiness test applied to `capacity` by
`if (capacity && ...)` and `capacity ? ... : false`: an absent (`undefined`
or `null`, modelled `none`) capacity and a capacity of `0` are falsy. -/
def capTruthy : Option Int → Bool
  | none => false
  | some c => c != 0

/-- The boolean `capacity && len >= capacity` of the join handler, which is
both the fullness check (`Check 2`) and the recomputed `isFull` value
(`capacity ? newAttendees.length >= capacity : false`). -/
def capFullAt (len : Nat) (capacity : Option Int) : Bool :=
  match capacity with
  | none => false
  | some c => if c != 0 then decide ((len : Int) ≥ c) else false

/-- The two business errors thrown inside the join transaction. -/
inductive JoinError where
  | alreadyJoined
  | sessionFull
deriving DecidableEq

/-- The business error thrown inside the leave transaction. -/
inductive LeaveError where
  | notAJoiner
deriving DecidableEq

/-- The pure mutation run inside the `runTransaction` body of
`handleJoinSession`: reject when the user is already an attendee, reject when
a truthy capacity is already reached, otherwise append the user and recompute
`isFull`; `capacity` itself is not part of the update payload. -/
def joinMutation (uid : String) (s : SessionDoc) : Except JoinError SessionDoc :=
  if uid ∈ s.attendees then
    .error .alreadyJoined
  else if capFullAt s.attendees.length s.capacity then
    .error .sessionFull
  else
    let newAttendees := s.attendees ++ [uid]
    .ok { attendees := newAttendees
          capacity := s.capacity
          isFull := capFullAt newAttendees.length s.capacity }

/-- The pure mutation run inside the `runTransaction` body of
`handleLeaveSession`: reject when the user is not an attendee, otherwise
filter the user out and set `isFull` to `false` unconditionally. -/
def leaveMutation (uid : String) (s : SessionDoc) : Except LeaveError SessionDoc :=
  if uid ∉ s.attendees then
    .error .notAJoiner
  else
    .ok { attendees := s.attendees.filter (fun a => a != uid)
          capacity := s.capacity
          isFull := false }

/-- A versioned document cell of the backing store: Firestore bumps the
version on every committed write; `none` models a document that does not
exist. -/
structure Store (α : Type) where
  version : Nat
  value : Option α
deriving DecidableEq

/-- Outcome of one contention-free `runTransaction` call. -/
inductive TxResult (ε : Type) where
  | notFound
  | business (e : ε)
  | committed
deriving DecidableEq

/-- One contention-free run of a Firestore transaction over a single
document: abort without writing when the document is missing or the
transaction body throws a business error, otherwise commit the new value
with a version bump. -/
def runDocTx (mutate : α → Except ε α) (st : Store α) :
    TxResult ε × Store α :=
  match st.value with
  | none => (.notFound, st)
  | some d =>
    match mutate d with
    | .error e => (.business e, st)
    | .ok d' => (.committed, { version := st.version + 1, value := some d' })

/-- Validity of the stored capacity per the data model: when present it is a
positive integer. -/
def capOk (s : SessionDoc) : Prop :=
  ∀ c : Int, s.capacity = some c → 0 < c

/-- The attendance invariant of the spec: a set capacity bounds the attendee
count, and `isFull` holds exactly when a capacity is set and met. -/
def attendanceInv (s : SessionDoc) : Prop :=
  (∀ c : Int, s.capacity = some c → (s.attendees.length : Int) ≤ c) ∧
  (s.isFull = true ↔ ∃ c : Int, s.capacity = some c ∧ (s.attendees.length : Int) = c)

/-- One entry of the `ratings` array of a location-rating document
(`UserRating` in `utils/locationRatings.ts`); the JavaScript `Date` is
modelled as an abstract tick supplied by the caller as `now`. -/
structure UserRating where
  userId : String
  userName : String
  rating : ℚ
  reviewText : String
  timestamp : Nat
  lastSessionId : String
deriving DecidableEq

/-- A location-rating document (`LocationRating` in
`utils/locationRatings.ts`); the two coordinate numbers are carried as
rationals. -/
structure LocationRatingDoc where
  locationId : String
  locationName : String
  locationLat : ℚ
  locationLng : ℚ
  placeId : Option String
  ratings : List UserRating
  averageRating : ℚ
  totalRatings : Nat
deriving DecidableEq

/-- The rounding `parseFloat(x.toFixed(2))` applied to the recomputed
average: round to the nearest multiple of 1/100. -/
def round2 (x : ℚ) : ℚ := (round (100 * x) : ℤ) / 100

/-- The accumulator `updatedRatings.reduce((sum, r) => sum + r.rating, 0)`. -/
def sumRatings (l : List UserRating) : ℚ :=
  l.foldl (fun acc r => acc + r.rating) 0

/-- The `newRating` record built at the top of `addOrUpdateRating`. -/
def mkUserRating (uid uname : String) (rating : ℚ) (review sid : String)
    (now : Nat) : UserRating :=
  { userId := uid
    userName := uname
    rating := rating
    reviewText := review
    timestamp := now
    lastSessionId := sid }

/-- The update branch of `addOrUpdateRating` (document already exists):
replace the first entry with the same `userId`, or append a new entry;
recompute `totalRatings` and the rounded `averageRating`; `updateDoc`
touches only these three fields. -/
def applyRatingUpdate (d : LocationRatingDoc) (nr : UserRating) :
    LocationRatingDoc :=
  let existingRatings := d.ratings
  let updatedRatings :=
    match existingRatings.findIdx? (fun r => r.userId == nr.userId) with
    | some i => existingRatings.set i nr
    | none => existingRatings ++ [nr]
  let totalRatings := updatedRatings.length
  let s := sumRatings updatedRatings
  let averageRating : ℚ := if totalRatings > 0 then s / totalRatings else 0
  { d with ratings := updatedRatings
           averageRating := round2 averageRating
           totalRatings := totalRatings }

/-- The create branch of `addOrUpdateRating` (document absent): `setDoc`
with a single-entry ratings array; the stored average is the raw score and
`placeId || null` maps a missing or empty place id to `null`. -/
def createRatingDoc (locationId locationName : String) (lat lng : ℚ)
    (placeId : Option String) (nr : UserRating) : LocationRatingDoc :=
  { locationId := locationId
    locationName := locationName
    locationLat := lat
    locationLng := lng
    placeId := match placeId with
      | some p => if p = "" then none else some p
      | none => none
    ratings := [nr]
    averageRating := nr.rating
    totalRatings := 1 }

/-- The document value `addOrUpdateRating` commits, as a function of the
snapshot it read (`none` when `docSnap.exists()` is false) and of its
arguments. -/
def addOrUpdateRatingValue (snapshot : Option LocationRatingDoc)
    (locationId locationName : String) (lat lng : ℚ) (uid uname : String)
    (rating : ℚ) (review sid : String) (now : Nat)
    (placeId : Option String) : LocationRatingDoc :=
  let nr := mkUserRating uid uname rating review sid now
  match snapshot with
  | some d => applyRatingUpdate d nr
  | none => createRatingDoc locationId locationName lat lng placeId nr

/-- A full `addOrUpdateRating` call split at its suspension point: the
snapshot is taken from `stRead` (the store at `getDoc` time) while the
write lands on `stWrite` (the store at `updateDoc`/`setDoc` time). The
write is unconditional: `updateDoc` merges the three recomputed fields into
whatever document is current (failing only if it vanished), and `setDoc`
creates the document outright. -/
def addOrUpdateRatingStep (stRead stWrite : Store LocationRatingDoc)
    (locationId locationName : String) (lat lng : ℚ) (uid uname : String)
    (rating : ℚ) (review sid : String) (now : Nat)
    (placeId : Option String) : Option (Store LocationRatingDoc) :=
  let nr := mkUserRating uid uname rating review sid now
  match stRead.value with
  | some d =>
    let upd := applyRatingUpdate d nr
    match stWrite.value with
    | some cur =>
      some { version := stWrite.version + 1
             value := some { cur with ratings := upd.ratings
                                      averageRating := upd.averageRating
                                      totalRatings := upd.totalRatings } }
    | none => none
  | none =>
    some { version := stWrite.version + 1
           value := some (createRatingDoc locationId locationName lat lng
             placeId nr) }

/-- Outcome of a compare-and-swap put against a versioned cell. -/
inductive PutOutcome (α : Type) where
  | committed (st : Store α)
  | conflict
  | missing
deriving DecidableEq

/-- The conditional put of the spec's `VersionedDocumentStore`: commit with a
version bump iff the stored version still equals the expected one. -/
def conditionalPut (st : Store α) (expected : Nat) (v : α) : PutOutcome α :=
  match st.value with
  | none => .missing
  | some _ =>
    if st.version = expected then
      .committed { version := st.version + 1, value := some v }
    else
      .conflict

/-- Well-formedness of a rating document for the claims: no user id keys two
entries of the `ratings` array. -/
def aggWF (d : LocationRatingDoc) : Prop :=
  (d.ratings.map (fun r => r.userId)).Nodup

/-- The mean the spec prescribes for `averageScore`: 0 on an empty rating
set, otherwise the sum of the scores over the count. -/
def ratingsAvg (l : List UserRating) : ℚ :=
  if l.length = 0 then 0 else sumRatings l / l.length

/-- Code-point comparison of two document ids, the order Firestore uses for
its implicit `__name__` tiebreaker. -/
def idLeB : List Char → List Char → Bool
  | [], _ => true
  | _ :: _, [] => false
  | x :: xs, y :: ys =>
    if x.toNat < y.toNat then true
    else if y.toNat < x.toNat then false
    else idLeB xs ys

/-- Document-id order lifted to strings. -/
def docIdLe (a b : String) : Bool := idLeB a.data b.data

/-- The order in which the Firestore query
`query(ratingsRef, orderBy('averageRating', 'desc'), limit(n))` delivers two
documents: higher `averageRating` first, ties broken by the implicit
`__name__` ordering, which follows the direction of the last `orderBy` and
is therefore document id descending. -/
def fsBefore (a b : LocationRatingDoc) : Bool :=
  decide (b.averageRating < a.averageRating) ||
    (a.averageRating == b.averageRating && docIdLe b.locationId a.locationId)

/-- `fsBefore` as a relation. -/
def fsOrder (a b : LocationRatingDoc) : Prop := fsBefore a b = true

instance : DecidableRel fsOrder := fun a b =>
  inferInstanceAs (Decidable (fsBefore a b = true))

/-- The embedding of `getTopRatedLocations`: the collection ordered as the
Firestore query delivers it, truncated to `limitCount` documents. -/
def getTopRatedLocations (limitCount : Nat) (docs : List LocationRatingDoc) :
    List LocationRatingDoc :=
  (List.insertionSort fsOrder docs).take limitCount

/-- The ordering the specification prescribes for `getTopRated`:
`averageScore` descending, ties broken by `totalCount` descending and then
by `locationId` ascending. -/
def specBefore (a b : LocationRatingDoc) : Bool :=
  decide (b.averageRating < a.averageRating) ||
    (a.averageRating == b.averageRating &&
      (decide (b.totalRatings < a.totalRatings) ||
        (a.totalRatings == b.totalRatings && docIdLe a.locationId b.locationId)))

/-- `specBefore` as a relation. -/
def specOrder (a b : LocationRatingDoc) : Prop := specBefore a b = true

instance : DecidableRel specOrder := fun a b =>
  inferInstanceAs (Decidable (specBefore a b = true))

/-- `getTopRated` as the specification describes it, for comparison with the
embedded `getTopRatedLocations`. -/
def getTopRatedSpec (limitCount : Nat) (docs : List LocationRatingDoc) :
    List LocationRatingDoc :=
  (List.insertionSort specOrder docs).take limitCount

/-- Errors of the optimistic-concurrency executor. -/
inductive TxError (β : Type) where
  | notFound
  | business (b : β)
  | maxRetriesExceeded
deriving DecidableEq

/-- Outcome of one conditional write as seen by the retry loop. -/
inductive PutResult where
  | committed (newVersion : Nat)
  | conflict
  | notFound
deriving DecidableEq

/-- Modelled from the spec: the body of `TransactionExecutor.run` (§4.2),
whose implementation lives inside the Firebase SDK's `runTransaction` rather
than in the repository sources. Each attempt reads the document, applies the
pure mutation, and issues a conditional write; a business error or a missing
document aborts immediately, a conflict consumes one retry, and exhausted
fuel yields `maxRetriesExceeded`. The environment is abstracted as
per-attempt read and conditional-write oracles, and the second component
counts the attempts made. -/
def runTxLoop {T β : Type} (get : Nat → Option (T × Nat))
    (put : Nat → Nat → T → PutResult) (mutate : T → Except β T) :
    Nat → Nat → Except (TxError β) T × Nat
  | 0, attempt => (.error .maxRetriesExceeded, attempt)
  | fuel + 1, attempt =>
    match get attempt with
    | none => (.error .notFound, attempt + 1)
    | some (v, ver) =>
      match mutate v with
      | .error b => (.error (.business b), attempt + 1)
      | .ok v' =>
        match put attempt ver v' with
        | .committed _ => (.ok v', attempt + 1)
        | .conflict => runTxLoop get put mutate fuel (attempt + 1)
        | .notFound => (.error .notFound, attempt + 1)

/-- Modelled from the spec: `TransactionExecutor.run(id, mutate, maxRetries)`
(§4.2), starting the retry loop with `maxRetries` attempts of fuel. -/
def runTx {T β : Type} (maxRetries : Nat) (get : Nat → Option (T × Nat))
    (put : Nat → Nat → T → PutResult) (mutate : T → Except β T) :
    Except (TxError β) T × Nat :=
  runTxLoop get put mutate maxRetries 0

instance {ε α : Type} [DecidableEq ε] [DecidableEq α] :
    DecidableEq (Except ε α) := fun x y =>
  match x, y with
  | .ok a, .ok b =>
    if h : a = b then .isTrue (by rw [h]) else .isFalse (by simp [h])
  | .error a, .error b =>
    if h : a = b then .isTrue (by rw [h]) else .isFalse (by simp [h])
  | .ok _, .error _ => .isFalse (by simp)
  | .error _, .ok _ => .isFalse (by simp)

/-- An existing but not yet rated location document, the initial state of the
concurrent scenarios below. -/
def emptyRatingDoc : LocationRatingDoc :=
  { locationId := "loc1"
    locationName := "Grainger"
    locationLat := 40
    locationLng := -88
    placeId := none
    ratings := []
    averageRating := 0
    totalRatings := 0 }

/-- The store holding `emptyRatingDoc` at version 1. -/
def ratingSt0 : Store LocationRatingDoc := ⟨1, some emptyRatingDoc⟩

/-- The document after user `userB` rates `loc1` with score 5. -/
def beaDoc : LocationRatingDoc :=
  { emptyRatingDoc with
      ratings := [mkUserRating "userB" "Bea" 5 "" "s1" 10]
      averageRating := 5
      totalRatings := 1 }

/-- The store after user `userB` commits a rating of 5 against `ratingSt0`. -/
def ratingStB : Store LocationRatingDoc := ⟨2, some beaDoc⟩

/-- A second not-yet-rated location document for the conditional-put
scenario. -/
def emptyRatingDoc2 : LocationRatingDoc :=
  { locationId := "loc2"
    locationName := "Union"
    locationLat := 40
    locationLng := -88
    placeId := none
    ratings := []
    averageRating := 0
    totalRatings := 0 }

/-- The store holding `emptyRatingDoc2` at version 7. -/
def ratingSt7 : Store LocationRatingDoc := ⟨7, some emptyRatingDoc2⟩

/-- The document after user `dave` rates `loc2` with score 2. -/
def daveDoc : LocationRatingDoc :=
  { emptyRatingDoc2 with
      ratings := [mkUserRating "dave" "Dave" 2 "" "s2" 20]
      averageRating := 2
      totalRatings := 1 }

/-- The store after user `dave` commits a rating of 2 against `ratingSt7`. -/
def ratingStD : Store LocationRatingDoc := ⟨8, some daveDoc⟩

/-- The rational 9/2, given by its reduced numerator and denominator so that
comparisons on it evaluate by kernel reduction. -/
def q45 : ℚ := ⟨9, 2, by norm_num, by norm_num⟩

/-- A location document with the given id, average and count; the remaining
fields are fixed and irrelevant to ordering. -/
def topDoc (lid : String) (avg : ℚ) (count : Nat) : LocationRatingDoc :=
  { locationId := lid
    locationName := lid
    locationLat := 0
    locationLng := 0
    placeId := none
    ratings := []
    averageRating := avg
    totalRatings := count }

/-- The spec's `getTopRated` scenario: L1 with average 4.5 and 2 ratings,
L2 with average 4.5 and 5 ratings, L3 with average 3. -/
def topExampleDocs : List LocationRatingDoc :=
  [topDoc "L1" q45 2, topDoc "L2" q45 5, topDoc "L3" 3 1]

/-- A tie where the count order and the id order disagree: L1 has the higher
count, L2 the higher document id. -/
def topTieDocs : List LocationRatingDoc :=
  [topDoc "L1" q45 5, topDoc "L2" q45 2]

/-- Read oracle of the all-conflict environment: the document always exists
at version 0. -/
def wGet : Nat → Option (Unit × Nat) := fun _ => some ((), 0)

/-- Write oracle of the all-conflict environment: every conditional put is
beaten by a concurrent writer. -/
def wPut : Nat → Nat → Unit → PutResult := fun _ _ _ => .conflict

/-- A mutation that always succeeds. -/
def wMut : Unit → Except Unit Unit := fun v => .ok v

/-- A location document already holding ratings 4 by `uA` and 5 by `uB`,
with consistent aggregate fields. -/
def resubmitDoc : LocationRatingDoc :=
  { locationId := "loc3"
    locationName := "Library"
    locationLat := 40
    locationLng := -88
    placeId := none
    ratings := [mkUserRating "uA" "Ann" 4 "" "s3" 0,
                mkUserRating "uB" "Bea" 5 "" "s3" 1]
    averageRating := q45
    totalRatings := 2 }

/-! Helper lemmas. -/

theorem length_filter_ne_lt_of_mem {l : List String} {u : String}
    (hu : u ∈ l) : (l.filter (fun a => a != u)).length < l.length := by
  induction l with
  | nil => cases hu
  | cons x xs ih =>
    by_cases hx : x = u
    · subst hx
      simp only [List.filter_cons, bne_self_eq_false, List.length_cons]
      exact Nat.lt_succ_of_le (List.length_filter_le _ _)
    · rcases List.mem_cons.mp hu with h | h
      · exact absurd h.symm hx
      · simpa [List.filter_cons, bne, hx] using Nat.succ_lt_succ (ih h)

theorem capFullAt_none (len : Nat) : capFullAt len none = false := rfl

theorem capFullAt_some (len : Nat) (c : Int) (hc0 : c ≠ 0) :
    capFullAt len (some c) = decide ((len : Int) ≥ c) := by
  simp [capFullAt, hc0]

/-- Decomposition of a successful join: the no-duplicate check, the
capacity check, and the exact document written. -/
theorem joinMutation_ok_iff {u : String} {s s' : SessionDoc} :
    joinMutation u s = .ok s' ↔
      u ∉ s.attendees ∧ capFullAt s.attendees.length s.capacity = false ∧
        s' = { attendees := s.attendees ++ [u]
               capacity := s.capacity
               isFull := capFullAt (s.attendees.length + 1) s.capacity } := by
  unfold joinMutation
  by_cases hmem : u ∈ s.attendees
  · simp [hmem]
  · by_cases hfull : capFullAt s.attendees.length s.capacity
    · simp [hmem, hfull]
    · rw [if_neg hmem, if_neg (by simpa using hfull)]
      simp only [Except.ok.injEq, hmem, not_false_iff, true_and,
        Bool.not_eq_true] at hfull ⊢
      rw [hfull]
      simp only [true_and]
      constructor
      · intro h
        rw [← h]
        simp [List.length_append]
      · intro h
        rw [h]
        simp [List.length_append]

/-- Decomposition of a successful leave: the membership check and the exact
document written. -/
theorem leaveMutation_ok_iff {u : String} {s s' : SessionDoc} :
    leaveMutation u s = .ok s' ↔
      u ∈ s.attendees ∧
        s' = { attendees := s.attendees.filter (fun a => a != u)
               capacity := s.capacity
               isFull := false } := by
  unfold leaveMutation
  by_cases hmem : u ∈ s.attendees
  · simp only [hmem, not_true, if_neg, not_false_iff, Except.ok.injEq,
      true_and]
    exact ⟨fun h => h.symm, fun h => h.symm⟩
  · simp [hmem]

/-! Claim theorems. -/

/-- C1: for every session document with a validly set capacity, the
invariant "`|attendees| ≤ capacity` and `isFull` holds exactly when the
capacity is set and met" is preserved by every successful join and leave. -/
theorem attendance_inv_preserved (s s' : SessionDoc) (u : String)
    (hcap : capOk s) (hinv : attendanceInv s)
    (hstep : joinMutation u s = .ok s' ∨ leaveMutation u s = .ok s') :
    attendanceInv s' ∧ capOk s' := by
  have hlen1 : ((s.attendees ++ [u]).length : Int) =
      (s.attendees.length : Int) + 1 := by
    simp [List.length_append]
  rcases hstep with hj | hl
  · obtain ⟨hmem, hfull, rfl⟩ := joinMutation_ok_iff.mp hj
    refine ⟨⟨?_, ?_⟩, ?_⟩
    · intro c hc
      have hc' : s.capacity = some c := hc
      have hc0 : (0 : Int) < c := hcap c hc'
      rw [hc', capFullAt_some _ _ hc0.ne'] at hfull
      have hlt : ¬((s.attendees.length : Int) ≥ c) :=
        of_decide_eq_false hfull
      show ((s.attendees ++ [u]).length : Int) ≤ c
      omega
    · show capFullAt (s.attendees.length + 1) s.capacity = true ↔
        ∃ c, s.capacity = some c ∧ ((s.attendees ++ [u]).length : Int) = c
      cases hsc : s.capacity with
      | none => simp [capFullAt_none]
      | some c =>
        have hc0 : (0 : Int) < c := hcap c hsc
        rw [hsc, capFullAt_some _ _ hc0.ne'] at hfull
        have hlt : ¬((s.attendees.length : Int) ≥ c) :=
          of_decide_eq_false hfull
        rw [capFullAt_some _ _ hc0.ne', decide_eq_true_eq]
        constructor
        · intro hge
          refine ⟨c, rfl, ?_⟩
          push_cast at hge
          omega
        · rintro ⟨c', hc', hlen⟩
          injection hc' with hcc
          subst hcc
          push_cast
          omega
    · intro c hc
      exact hcap c hc
  · obtain ⟨hmem, rfl⟩ := leaveMutation_ok_iff.mp hl
    refine ⟨⟨?_, ?_⟩, ?_⟩
    · intro c hc
      have hc' : s.capacity = some c := hc
      have hle := hinv.1 c hc'
      have hfle := List.length_filter_le (fun a => a != u) s.attendees
      show (((s.attendees.filter (fun a => a != u)).length : Nat) : Int) ≤ c
      omega
    · show (false = true) ↔ ∃ c, s.capacity = some c ∧
        (((s.attendees.filter (fun a => a != u)).length : Nat) : Int) = c
      simp only [Bool.false_eq_true, false_iff]
      rintro ⟨c, hc, hflen⟩
      have hle := hinv.1 c hc
      have hlt := length_filter_ne_lt_of_mem hmem
      omega
    · intro c hc
      exact hcap c hc

/-- Witness for C1: joining a two-slot session holding one attendee
preserves the invariant and fills the session. -/
theorem attendance_inv_preserved_witness :
    (capOk ⟨["a"], some 2, false⟩ ∧ attendanceInv ⟨["a"], some 2, false⟩ ∧
      (joinMutation "b" ⟨["a"], some 2, false⟩ = .ok ⟨["a", "b"], some 2, true⟩ ∨
        leaveMutation "b" ⟨["a"], some 2, false⟩ =
          .ok ⟨["a", "b"], some 2, true⟩)) ∧
    (attendanceInv ⟨["a", "b"], some 2, true⟩ ∧
      capOk ⟨["a", "b"], some 2, true⟩) := by
  have hcap : capOk ⟨["a"], some 2, false⟩ := by
    intro c hc
    injection hc with h
    omega
  have hinv : attendanceInv ⟨["a"], some 2, false⟩ := by
    constructor
    · intro c hc
      injection hc with h
      subst h
      norm_num
    · simp only [Bool.false_eq_true, false_iff]
      rintro ⟨c, hc, hlen⟩
      injection hc with h
      subst h
      norm_num at hlen
  have hstep :
      joinMutation "b" ⟨["a"], some 2, false⟩ =
          .ok ⟨["a", "b"], some 2, true⟩ ∨
        leaveMutation "b" ⟨["a"], some 2, false⟩ =
          .ok ⟨["a", "b"], some 2, true⟩ :=
    Or.inl (by decide)
  exact ⟨⟨hcap, hinv, hstep⟩,
    attendance_inv_preserved _ _ "b" hcap hinv hstep⟩

theorem capFullAt_eq_iff {cap : Option Int} {len : Nat}
    (hcap : ∀ c, cap = some c → (0 : Int) < c)
    (hle : ∀ c, cap = some c → (len : Int) ≤ c) :
    (capFullAt len cap = true ↔ ∃ c, cap = some c ∧ (len : Int) = c) := by
  rcases cap with _ | c
  · simp [capFullAt_none]
  · have hc0 := hcap c rfl
    have hlec := hle c rfl
    rw [capFullAt_some _ _ hc0.ne', decide_eq_true_eq]
    constructor
    · intro hge
      exact ⟨c, rfl, by omega⟩
    · rintro ⟨c', hc', hlen⟩
      injection hc' with hcc
      subst hcc
      omega

/-- C3: join rejects exactly the already-joined user, rejects exactly the
full session otherwise, appends and recomputes `isFull` in the remaining
case, and an error aborts the transaction without touching the store. -/
theorem joinMutation_cases (s : SessionDoc) (u : String) (hcap : capOk s) :
    (joinMutation u s = .error .alreadyJoined ↔ u ∈ s.attendees) ∧
    (u ∉ s.attendees →
      (joinMutation u s = .error .sessionFull ↔
        ∃ c, s.capacity = some c ∧ (s.attendees.length : Int) ≥ c)) ∧
    (∀ s', joinMutation u s = .ok s' →
      s'.attendees = s.attendees ++ [u] ∧ s'.capacity = s.capacity ∧
      (s'.isFull = true ↔
        ∃ c, s.capacity = some c ∧ (s'.attendees.length : Int) = c)) ∧
    (∀ st : Store SessionDoc, st.value = some s →
      ∀ e, joinMutation u s = .error e →
        runDocTx (joinMutation u) st = (.business e, st)) := by
  refine ⟨?_, ?_, ?_, ?_⟩
  · by_cases hmem : u ∈ s.attendees
    · simp [joinMutation, hmem]
    · by_cases hfull : capFullAt s.attendees.length s.capacity
      · simp [joinMutation, hmem, hfull]
      · simp [joinMutation, hmem, hfull]
  · intro hmem
    rcases hsc : s.capacity with _ | c
    · have hfull : capFullAt s.attendees.length s.capacity = false := by
        rw [hsc]
        exact capFullAt_none _
      refine iff_of_false ?_ ?_
      · intro h
        simp [joinMutation, hmem, hfull] at h
      · rintro ⟨c', hc', -⟩
        cases hc'
    · have hc0 : (0 : Int) < c := hcap c hsc
      by_cases hge : (s.attendees.length : Int) ≥ c
      · have hfull : capFullAt s.attendees.length s.capacity = true := by
          rw [hsc, capFullAt_some _ _ hc0.ne', decide_eq_true_eq]
          exact hge
        have herr : joinMutation u s = .error .sessionFull := by
          simp [joinMutation, hmem, hfull]
        exact iff_of_true herr ⟨c, rfl, hge⟩
      · have hfull : capFullAt s.attendees.length s.capacity = false := by
          rw [hsc, capFullAt_some _ _ hc0.ne', decide_eq_false_iff_not]
          exact hge
        refine iff_of_false ?_ ?_
        · intro h
          simp [joinMutation, hmem, hfull] at h
        · rintro ⟨c', hc', hge'⟩
          injection hc' with hcc
          subst hcc
          exact hge hge'
  · intro s' hok
    obtain ⟨hmem, hfull, rfl⟩ := joinMutation_ok_iff.mp hok
    refine ⟨rfl, rfl, ?_⟩
    show capFullAt (s.attendees.length + 1) s.capacity = true ↔
      ∃ c, s.capacity = some c ∧ ((s.attendees ++ [u]).length : Int) = c
    have hlen1 : ((s.attendees ++ [u]).length : Int) =
        ((s.attendees.length + 1 : Nat) : Int) := by
      simp [List.length_append]
    rw [hlen1]
    refine capFullAt_eq_iff hcap ?_
    intro c hc
    have hc0 := hcap c hc
    rw [hc, capFullAt_some _ _ hc0.ne'] at hfull
    have := of_decide_eq_false hfull
    push_cast
    omega
  · intro st hst e herr
    simp [runDocTx, hst, herr]

/-- Witness for C3: on a one-slot session holding `a`, joining as `a` gives
`AlreadyJoined`, joining as `b` gives `SessionFull`, and the transaction
leaves the stored document untouched. -/
theorem joinMutation_cases_witness :
    capOk ⟨["a"], some 1, true⟩ ∧
    (joinMutation "a" ⟨["a"], some 1, true⟩ = .error .alreadyJoined ∧
      joinMutation "b" ⟨["a"], some 1, true⟩ = .error .sessionFull) ∧
    runDocTx (joinMutation "b") ⟨4, some ⟨["a"], some 1, true⟩⟩ =
      (.business .sessionFull, ⟨4, some ⟨["a"], some 1, true⟩⟩) := by
  have hcap : capOk ⟨["a"], some 1, true⟩ := by
    intro c hc
    injection hc with h
    omega
  have h := joinMutation_cases ⟨["a"], some 1, true⟩ "a" hcap
  have h' := joinMutation_cases ⟨["a"], some 1, true⟩ "b" hcap
  refine ⟨hcap, ⟨?_, ?_⟩, ?_⟩
  · exact h.1.mpr (by decide)
  · exact (h'.2.1 (by decide)).mpr ⟨1, rfl, by norm_num⟩
  · exact h'.2.2.2 ⟨4, some ⟨["a"], some 1, true⟩⟩ rfl .sessionFull
      ((h'.2.1 (by decide)).mpr ⟨1, rfl, by norm_num⟩)

/-- C4: leave rejects exactly the non-attendee, aborting the transaction
with the store untouched; on an attendee it removes precisely that user,
keeps everyone else, clears `isFull`, and keeps `capacity`. -/
theorem leaveMutation_cases (s : SessionDoc) (u : String) :
    (u ∉ s.attendees →
      leaveMutation u s = .error .notAJoiner ∧
      ∀ st : Store SessionDoc, st.value = some s →
        runDocTx (leaveMutation u) st = (.business .notAJoiner, st)) ∧
    (u ∈ s.attendees → ∀ s', leaveMutation u s = .ok s' →
      s'.attendees = s.attendees.filter (fun a => a != u) ∧
      u ∉ s'.attendees ∧
      (∀ v, v ≠ u → (v ∈ s'.attendees ↔ v ∈ s.attendees)) ∧
      s'.isFull = false ∧ s'.capacity = s.capacity) := by
  constructor
  · intro hmem
    have herr : leaveMutation u s = .error .notAJoiner := by
      simp [leaveMutation, hmem]
    refine ⟨herr, ?_⟩
    intro st hst
    simp [runDocTx, hst, herr]
  · intro hmem s' hok
    obtain ⟨-, rfl⟩ := leaveMutation_ok_iff.mp hok
    refine ⟨rfl, ?_, ?_, rfl, rfl⟩
    · show u ∉ s.attendees.filter (fun a => a != u)
      simp [List.mem_filter]
    · intro v hv
      show v ∈ s.attendees.filter (fun a => a != u) ↔ v ∈ s.attendees
      simp [List.mem_filter, bne, hv]

/-- Witness for C4: on a session holding `a` and `b`, leaving as `z` gives
`NotAJoiner` and leaves the store untouched; leaving as `a` removes exactly
`a` and clears `isFull`. -/
theorem leaveMutation_cases_witness :
    ("z" ∉ (⟨["a", "b"], some 2, true⟩ : SessionDoc).attendees ∧
      leaveMutation "z" ⟨["a", "b"], some 2, true⟩ = .error .notAJoiner ∧
      runDocTx (leaveMutation "z") ⟨6, some ⟨["a", "b"], some 2, true⟩⟩ =
        (.business .notAJoiner, ⟨6, some ⟨["a", "b"], some 2, true⟩⟩)) ∧
    ("a" ∈ (⟨["a", "b"], some 2, true⟩ : SessionDoc).attendees ∧
      leaveMutation "a" ⟨["a", "b"], some 2, true⟩ =
        .ok ⟨["b"], some 2, false⟩ ∧
      (⟨["b"], some 2, false⟩ : SessionDoc).attendees =
        (⟨["a", "b"], some 2, true⟩ : SessionDoc).attendees.filter
          (fun a => a != "a") ∧
      "a" ∉ (⟨["b"], some 2, false⟩ : SessionDoc).attendees ∧
      (∀ v, v ≠ "a" →
        (v ∈ (⟨["b"], some 2, false⟩ : SessionDoc).attendees ↔
          v ∈ (⟨["a", "b"], some 2, true⟩ : SessionDoc).attendees)) ∧
      (⟨["b"], some 2, false⟩ : SessionDoc).isFull = false ∧
      (⟨["b"], some 2, false⟩ : SessionDoc).capacity =
        (⟨["a", "b"], some 2, true⟩ : SessionDoc).capacity) := by
  have h1 := (leaveMutation_cases ⟨["a", "b"], some 2, true⟩ "z").1 (by decide)
  have h2 := (leaveMutation_cases ⟨["a", "b"], some 2, true⟩ "a").2 (by decide)
    ⟨["b"], some 2, false⟩ (by decide)
  exact ⟨⟨by decide, h1.1, h1.2 _ rfl⟩, by decide, by decide, h2.1, h2.2.1,
    h2.2.2.1, h2.2.2.2.1, h2.2.2.2.2⟩

/-- C10: a stored capacity of `0` is falsy, so join never reports a full
session, the written `isFull` is always `false`, and the observable join
behaviour is identical to a session without a capacity field. -/
theorem join_capacity_zero (s : SessionDoc) (u : String)
    (hc : s.capacity = some 0) :
    joinMutation u s ≠ .error .sessionFull ∧
    (∀ s', joinMutation u s = .ok s' → s'.isFull = false) ∧
    (joinMutation u s).map (fun d => (d.attendees, d.isFull)) =
      (joinMutation u { s with capacity := none }).map
        (fun d => (d.attendees, d.isFull)) := by
  have hfull0 : ∀ len, capFullAt len s.capacity = false := by
    intro len
    rw [hc]
    rfl
  refine ⟨?_, ?_, ?_⟩
  · intro h
    by_cases hmem : u ∈ s.attendees
    · simp [joinMutation, hmem] at h
    · simp [joinMutation, hmem, hfull0] at h
  · intro s' hok
    obtain ⟨-, -, rfl⟩ := joinMutation_ok_iff.mp hok
    exact hfull0 _
  · by_cases hmem : u ∈ s.attendees
    · simp [joinMutation, hmem]
    · simp [joinMutation, hmem, hfull0, capFullAt_none, Except.map]

/-- Witness for C10: a capacity-0 session with two attendees still accepts a
third, with `isFull` written `false`, exactly as if capacity were absent. -/
theorem join_capacity_zero_witness :
    (⟨["a", "b"], some 0, false⟩ : SessionDoc).capacity = some 0 ∧
    (joinMutation "c" ⟨["a", "b"], some 0, false⟩ ≠ .error .sessionFull ∧
      (∀ s', joinMutation "c" ⟨["a", "b"], some 0, false⟩ = .ok s' →
        s'.isFull = false) ∧
      (joinMutation "c" ⟨["a", "b"], some 0, false⟩).map
          (fun d => (d.attendees, d.isFull)) =
        (joinMutation "c"
            { (⟨["a", "b"], some 0, false⟩ : SessionDoc) with
                capacity := none }).map (fun d => (d.attendees, d.isFull))) :=
  ⟨rfl, join_capacity_zero ⟨["a", "b"], some 0, false⟩ "c" rfl⟩

/-- C2 counterexample: with the document at version 1 and empty, `userB`'s
full call commits a rating of 5; `userA`'s call, which read before `userB`
committed, then writes a value computed from its stale snapshot, and the
committed document no longer contains `userB`'s entry — the concurrent
insert is silently reverted, so the writes are not conditional on the
version read. -/
theorem addOrUpdateRating_lost_update_cex :
    addOrUpdateRatingStep ratingSt0 ratingSt0 "loc1" "Grainger" 40 (-88)
        "userB" "Bea" 5 "" "s1" 10 none = some ratingStB ∧
    (addOrUpdateRatingStep ratingSt0 ratingStB "loc1" "Grainger" 40 (-88)
        "userA" "Ann" 4 "" "s1" 11 none).map
        (fun st => st.value.map (fun d => d.ratings.map (fun r => r.userId))) =
      some (some ["userA"]) ∧
    ratingStB.value.map (fun d => d.ratings.map (fun r => r.userId)) =
      some ["userB"] := by
  refine ⟨?_, by decide, by decide⟩
  simp only [addOrUpdateRatingStep, applyRatingUpdate, ratingSt0, ratingStB,
    emptyRatingDoc, beaDoc, mkUserRating, sumRatings, List.findIdx?]
  norm_num [round2, round_eq]

/-- C2 amended: `addOrUpdateRating` is an unconditional read-modify-write
with no compare-and-swap and no retry: whenever the document exists at read
and write time, the write commits regardless of the current version or
value, replacing the three aggregate fields with ones computed from the
snapshot alone; consequently an entry inserted concurrently (present in the
current value, absent from the snapshot, for a different user) is dropped
from the committed value. -/
theorem addOrUpdateRating_overwrites (stRead stWrite : Store LocationRatingDoc)
    (dRead dCur : LocationRatingDoc) (locationId locationName : String)
    (lat lng : ℚ) (uid uname : String) (rating : ℚ) (review sid : String)
    (now : Nat) (placeId : Option String)
    (hr : stRead.value = some dRead) (hw : stWrite.value = some dCur) :
    addOrUpdateRatingStep stRead stWrite locationId locationName lat lng uid
        uname rating review sid now placeId =
      some ⟨stWrite.version + 1, some
        { dCur with
            ratings := (applyRatingUpdate dRead
              (mkUserRating uid uname rating review sid now)).ratings
            averageRating := (applyRatingUpdate dRead
              (mkUserRating uid uname rating review sid now)).averageRating
            totalRatings := (applyRatingUpdate dRead
              (mkUserRating uid uname rating review sid now)).totalRatings }⟩ ∧
    (∀ r ∈ dCur.ratings, (∀ x ∈ dRead.ratings, x.userId ≠ r.userId) →
      r.userId ≠ uid →
      ∀ st', addOrUpdateRatingStep stRead stWrite locationId locationName lat
          lng uid uname rating review sid now placeId = some st' →
        ∀ d', st'.value = some d' → r ∉ d'.ratings) := by
  have hstep : addOrUpdateRatingStep stRead stWrite locationId locationName
      lat lng uid uname rating review sid now placeId =
      some ⟨stWrite.version + 1, some
        { dCur with
            ratings := (applyRatingUpdate dRead
              (mkUserRating uid uname rating review sid now)).ratings
            averageRating := (applyRatingUpdate dRead
              (mkUserRating uid uname rating review sid now)).averageRating
            totalRatings := (applyRatingUpdate dRead
              (mkUserRating uid uname rating review sid now)).totalRatings }⟩ := by
    simp [addOrUpdateRatingStep, hr, hw]
  refine ⟨hstep, ?_⟩
  intro r hrcur hnotread hnotuid st' hst' d' hd'
  rw [hstep] at hst'
  injection hst' with hst'
  subst hst'
  simp only [] at hd'
  injection hd' with hd'
  subst hd'
  intro hmem
  simp only [applyRatingUpdate] at hmem
  rcases hfind : dRead.ratings.findIdx?
      (fun x => x.userId == (mkUserRating uid uname rating review sid now).userId) with
    _ | i
  · rw [hfind] at hmem
    simp only [] at hmem
    rcases List.mem_append.mp hmem with hin | hin
    · exact hnotread r hin rfl
    · have : r = mkUserRating uid uname rating review sid now :=
        List.mem_singleton.mp hin
      exact hnotuid (by rw [this]; rfl)
  · rw [hfind] at hmem
    simp only [] at hmem
    rcases List.mem_or_eq_of_mem_set hmem with hin | hin
    · exact hnotread r hin rfl
    · exact hnotuid (by rw [hin]; rfl)

/-- Witness for C2's amended theorem: `userA`'s stale write against the
store already holding `userB`'s rating commits unconditionally at version
3 with the snapshot-derived fields. -/
theorem addOrUpdateRating_overwrites_witness :
    ratingSt0.value = some emptyRatingDoc ∧
    ratingStB.value = some beaDoc ∧
    addOrUpdateRatingStep ratingSt0 ratingStB "loc1" "Grainger" 40 (-88)
        "userA" "Ann" 4 "" "s1" 11 none =
      some ⟨3, some
        { beaDoc with
            ratings := (applyRatingUpdate emptyRatingDoc
              (mkUserRating "userA" "Ann" 4 "" "s1" 11)).ratings
            averageRating := (applyRatingUpdate emptyRatingDoc
              (mkUserRating "userA" "Ann" 4 "" "s1" 11)).averageRating
            totalRatings := (applyRatingUpdate emptyRatingDoc
              (mkUserRating "userA" "Ann" 4 "" "s1" 11)).totalRatings }⟩ :=
  ⟨rfl, rfl,
    (addOrUpdateRating_overwrites ratingSt0 ratingStB emptyRatingDoc beaDoc
      "loc1" "Grainger" 40 (-88) "userA" "Ann" 4 "" "s1" 11 none rfl rfl).1⟩

theorem applyRatingUpdate_ratings (d : LocationRatingDoc) (nr : UserRating) :
    (applyRatingUpdate d nr).ratings =
      match d.ratings.findIdx? (fun r => r.userId == nr.userId) with
      | some i => d.ratings.set i nr
      | none => d.ratings ++ [nr] := rfl

theorem applyRatingUpdate_totalRatings (d : LocationRatingDoc)
    (nr : UserRating) :
    (applyRatingUpdate d nr).totalRatings =
      (applyRatingUpdate d nr).ratings.length := rfl

theorem if_avg_eq_ratingsAvg (l : List UserRating) :
    (if l.length > 0 then sumRatings l / (l.length : ℚ) else 0) =
      ratingsAvg l := by
  unfold ratingsAvg
  rcases Nat.eq_zero_or_pos l.length with h | h
  · rw [if_neg (by omega), if_pos h]
  · rw [if_pos h, if_neg (by omega)]

theorem applyRatingUpdate_averageRating (d : LocationRatingDoc)
    (nr : UserRating) :
    (applyRatingUpdate d nr).averageRating =
      round2 (ratingsAvg (applyRatingUpdate d nr).ratings) := by
  rw [← if_avg_eq_ratingsAvg]
  rfl

theorem set_of_getElem?_eq {α : Type} :
    ∀ (l : List α) (i : Nat) (a : α), l[i]? = some a → l.set i a = l
  | [], i, a, h => by simp at h
  | x :: xs, 0, a, h => by
    simp only [List.getElem?_cons_zero, Option.some.injEq] at h
    simp [h]
  | x :: xs, i + 1, a, h => by
    simp only [List.getElem?_cons_succ] at h
    simp [set_of_getElem?_eq xs i a h]

theorem map_userId_set_of_findIdx? {d : LocationRatingDoc} {nr : UserRating}
    {i : Nat}
    (hfind : d.ratings.findIdx? (fun r => r.userId == nr.userId) = some i) :
    (d.ratings.set i nr).map (fun r => r.userId) =
      d.ratings.map (fun r => r.userId) := by
  obtain ⟨hlt, hp, -⟩ := List.findIdx?_eq_some_iff_getElem.mp hfind
  rw [List.map_set]
  refine set_of_getElem?_eq _ _ _ ?_
  rw [List.getElem?_map, List.getElem?_eq_getElem hlt]
  simpa using beq_iff_eq.mp hp

theorem applyRatingUpdate_wf (d : LocationRatingDoc) (nr : UserRating)
    (hwf : aggWF d) : aggWF (applyRatingUpdate d nr) := by
  unfold aggWF at hwf ⊢
  rw [applyRatingUpdate_ratings]
  rcases hfind : d.ratings.findIdx? (fun r => r.userId == nr.userId) with _ | i
  · have hnot : nr.userId ∉ d.ratings.map (fun r => r.userId) := by
      intro hin
      rcases List.mem_map.mp hin with ⟨x, hx, hxid⟩
      have hfalse := List.findIdx?_eq_none_iff.mp hfind x hx
      simp [hxid] at hfalse
    simp only [hfind]
    simp [List.nodup_append, hnot, hwf]
  · simp only [hfind]
    rw [map_userId_set_of_findIdx? hfind]
    exact hwf

theorem applyRatingUpdate_mem (d : LocationRatingDoc) (nr : UserRating) :
    nr ∈ (applyRatingUpdate d nr).ratings := by
  rw [applyRatingUpdate_ratings]
  rcases hfind : d.ratings.findIdx? (fun r => r.userId == nr.userId) with _ | i
  · simp only [hfind]
    simp
  · simp only [hfind]
    obtain ⟨hlt, -, -⟩ := List.findIdx?_eq_some_iff_getElem.mp hfind
    have hlen : i < (d.ratings.set i nr).length := by simpa using hlt
    have hget := List.getElem_set_self (l := d.ratings) (i := i) (a := nr) hlen
    have hin := List.getElem_mem hlen
    rwa [hget] at hin

theorem find?_set_of_findIdx? {α : Type} {l : List α} {p : α → Bool}
    {i : Nat} {a : α} (hidx : l.findIdx? p = some i) (ha : p a = true) :
    (l.set i a).find? p = some a := by
  induction l generalizing i with
  | nil => simp at hidx
  | cons x xs ih =>
    simp only [List.findIdx?_cons, Nat.zero_add, List.findIdx?_succ] at hidx
    by_cases hx : p x = true
    · rw [if_pos hx] at hidx
      injection hidx with h
      subst h
      rw [List.set_cons_zero]
      exact List.find?_cons_of_pos _ ha
    · rw [if_neg hx] at hidx
      obtain ⟨i', hi', rfl⟩ := Option.map_eq_some'.mp hidx
      rw [List.set_cons_succ, List.find?_cons_of_neg _ hx]
      exact ih hi'

/-- C5 counterexample: a call with score 7, outside 1..5, is accepted and
committed: the stored document carries the out-of-range score, a total of 1
and an average of 7 — no `InvalidScore` rejection exists in the code. -/
theorem invalid_score_stored_cex :
    (addOrUpdateRatingValue none "loc1" "Grainger" 40 (-88) "userA" "Ann" 7
        "" "s1" 0 none).ratings.map (fun r => r.rating) = [7] ∧
    (addOrUpdateRatingValue none "loc1" "Grainger" 40 (-88) "userA" "Ann" 7
        "" "s1" 0 none).averageRating = 7 ∧
    (addOrUpdateRatingValue none "loc1" "Grainger" 40 (-88) "userA" "Ann" 7
        "" "s1" 0 none).totalRatings = 1 := by
  refine ⟨by decide, by decide, by decide⟩

/-- C5 amended: `addOrUpdateRating` performs no validation of the score:
for every score whatsoever (in particular any value outside 1..5) the
committed document contains an entry for the calling user carrying exactly
that score. -/
theorem addOrUpdateRating_stores_any_score (snapshot : Option LocationRatingDoc)
    (locationId locationName : String) (lat lng : ℚ) (uid uname : String)
    (rating : ℚ) (review sid : String) (now : Nat) (placeId : Option String) :
    ∃ e ∈ (addOrUpdateRatingValue snapshot locationId locationName lat lng
        uid uname rating review sid now placeId).ratings,
      e.userId = uid ∧ e.rating = rating := by
  cases snapshot with
  | none =>
    exact ⟨mkUserRating uid uname rating review sid now,
      by simp [addOrUpdateRatingValue, createRatingDoc], rfl, rfl⟩
  | some d =>
    exact ⟨mkUserRating uid uname rating review sid now,
      applyRatingUpdate_mem d _, rfl, rfl⟩

/-- C6: a successful upsert leaves an aggregate whose `totalRatings` equals
the ratings count, whose `averageRating` is the two-decimal rounding of the
mean (with the create branch storing the raw score, equal to its own
rounding for any score of at most two decimals), and whose user ids stay
duplicate-free. -/
theorem addOrUpdateRating_aggregate_inv (snapshot : Option LocationRatingDoc)
    (locationId locationName : String) (lat lng : ℚ) (uid uname : String)
    (rating : ℚ) (review sid : String) (now : Nat) (placeId : Option String)
    (hwf : ∀ d, snapshot = some d → aggWF d) (hr : round2 rating = rating) :
    (addOrUpdateRatingValue snapshot locationId locationName lat lng uid
        uname rating review sid now placeId).totalRatings =
      (addOrUpdateRatingValue snapshot locationId locationName lat lng uid
        uname rating review sid now placeId).ratings.length ∧
    (addOrUpdateRatingValue snapshot locationId locationName lat lng uid
        uname rating review sid now placeId).averageRating =
      round2 (ratingsAvg (addOrUpdateRatingValue snapshot locationId
        locationName lat lng uid uname rating review sid now
        placeId).ratings) ∧
    aggWF (addOrUpdateRatingValue snapshot locationId locationName lat lng
      uid uname rating review sid now placeId) := by
  cases snapshot with
  | none =>
    refine ⟨rfl, ?_, by simp [addOrUpdateRatingValue, createRatingDoc, aggWF]⟩
    show (mkUserRating uid uname rating review sid now).rating =
      round2 (ratingsAvg [mkUserRating uid uname rating review sid now])
    have havg : ratingsAvg [mkUserRating uid uname rating review sid now] =
        rating := by
      simp [ratingsAvg, sumRatings, mkUserRating]
    rw [havg, hr]
    rfl
  | some d =>
    exact ⟨applyRatingUpdate_totalRatings d _,
      applyRatingUpdate_averageRating d _,
      applyRatingUpdate_wf d _ (hwf d rfl)⟩

/-- Witness for C6: `userA` rating 3 on the document already holding
`userB`'s rating of 5 yields a consistent aggregate. -/
theorem addOrUpdateRating_aggregate_inv_witness :
    ((∀ d, some beaDoc = some d → aggWF d) ∧ round2 3 = 3) ∧
    ((addOrUpdateRatingValue (some beaDoc) "loc1" "Grainger" 40 (-88)
        "userA" "Ann" 3 "" "s1" 11 none).totalRatings =
      (addOrUpdateRatingValue (some beaDoc) "loc1" "Grainger" 40 (-88)
        "userA" "Ann" 3 "" "s1" 11 none).ratings.length ∧
    (addOrUpdateRatingValue (some beaDoc) "loc1" "Grainger" 40 (-88)
        "userA" "Ann" 3 "" "s1" 11 none).averageRating =
      round2 (ratingsAvg (addOrUpdateRatingValue (some beaDoc) "loc1"
        "Grainger" 40 (-88) "userA" "Ann" 3 "" "s1" 11 none).ratings) ∧
    aggWF (addOrUpdateRatingValue (some beaDoc) "loc1" "Grainger" 40 (-88)
      "userA" "Ann" 3 "" "s1" 11 none)) := by
  have hwf : ∀ d, some beaDoc = some d → aggWF d := by
    intro d hd
    cases hd
    unfold aggWF
    decide
  have hr : round2 (3 : ℚ) = 3 := by
    rw [round2, round_eq]
    norm_num
  exact ⟨⟨hwf, hr⟩, addOrUpdateRating_aggregate_inv (some beaDoc) "loc1"
    "Grainger" 40 (-88) "userA" "Ann" 3 "" "s1" 11 none hwf hr⟩

/-- C7: when the user already has an entry, a second upsert keeps
`totalRatings`, keeps the set of rating users, replaces that user's entry
with the new score, and refreshes the rounded average over the latest
scores. -/
theorem addOrUpdateRating_resubmit (d : LocationRatingDoc)
    (locationId locationName : String) (lat lng : ℚ) (uid uname : String)
    (rating : ℚ) (review sid : String) (now : Nat) (placeId : Option String)
    (htc : d.totalRatings = d.ratings.length)
    (hmem : uid ∈ d.ratings.map (fun r => r.userId)) :
    (addOrUpdateRatingValue (some d) locationId locationName lat lng uid
        uname rating review sid now placeId).totalRatings = d.totalRatings ∧
    (addOrUpdateRatingValue (some d) locationId locationName lat lng uid
        uname rating review sid now placeId).ratings.map (fun r => r.userId) =
      d.ratings.map (fun r => r.userId) ∧
    (addOrUpdateRatingValue (some d) locationId locationName lat lng uid
        uname rating review sid now placeId).ratings.find?
        (fun r => r.userId == uid) =
      some (mkUserRating uid uname rating review sid now) ∧
    (addOrUpdateRatingValue (some d) locationId locationName lat lng uid
        uname rating review sid now placeId).averageRating =
      round2 (ratingsAvg (addOrUpdateRatingValue (some d) locationId
        locationName lat lng uid uname rating review sid now
        placeId).ratings) := by
  have hmem' : (mkUserRating uid uname rating review sid now).userId ∈
      d.ratings.map (fun r => r.userId) := hmem
  obtain ⟨i, hfind⟩ : ∃ i, d.ratings.findIdx?
      (fun r => r.userId ==
        (mkUserRating uid uname rating review sid now).userId) = some i := by
    rcases hcase : d.ratings.findIdx?
        (fun r => r.userId ==
          (mkUserRating uid uname rating review sid now).userId) with _ | i
    · exfalso
      rcases List.mem_map.mp hmem' with ⟨x, hx, hxid⟩
      have hfalse := List.findIdx?_eq_none_iff.mp hcase x hx
      simp [hxid] at hfalse
    · exact ⟨i, hcase⟩
  have hmap : (applyRatingUpdate d
      (mkUserRating uid uname rating review sid now)).ratings.map
        (fun r => r.userId) = d.ratings.map (fun r => r.userId) := by
    rw [applyRatingUpdate_ratings, hfind]
    exact map_userId_set_of_findIdx? hfind
  refine ⟨?_, hmap, ?_, applyRatingUpdate_averageRating d _⟩
  · have hlen : (applyRatingUpdate d
        (mkUserRating uid uname rating review sid now)).ratings.length =
        d.ratings.length := by
      have h1 := congrArg List.length hmap
      simpa using h1
    show (applyRatingUpdate d
      (mkUserRating uid uname rating review sid now)).totalRatings =
        d.totalRatings
    rw [applyRatingUpdate_totalRatings, hlen, htc]
  · show (applyRatingUpdate d
      (mkUserRating uid uname rating review sid now)).ratings.find?
        (fun r => r.userId == uid) =
      some (mkUserRating uid uname rating review sid now)
    rw [applyRatingUpdate_ratings, hfind]
    exact find?_set_of_findIdx? hfind (by simp [mkUserRating])

/-- Witness for C7: on the document with scores `uA` 4 and `uB` 5, user
`uA` resubmitting 2 keeps the count at 2, replaces the entry, and the new
average is 3.5. -/
theorem addOrUpdateRating_resubmit_witness :
    (resubmitDoc.totalRatings = resubmitDoc.ratings.length ∧
      "uA" ∈ resubmitDoc.ratings.map (fun r => r.userId)) ∧
    ((addOrUpdateRatingValue (some resubmitDoc) "loc3" "Library" 40 (-88)
        "uA" "Ann" 2 "" "s4" 2 none).totalRatings =
          resubmitDoc.totalRatings ∧
      (addOrUpdateRatingValue (some resubmitDoc) "loc3" "Library" 40 (-88)
        "uA" "Ann" 2 "" "s4" 2 none).ratings.map (fun r => r.userId) =
          resubmitDoc.ratings.map (fun r => r.userId) ∧
      (addOrUpdateRatingValue (some resubmitDoc) "loc3" "Library" 40 (-88)
        "uA" "Ann" 2 "" "s4" 2 none).ratings.find?
          (fun r => r.userId == "uA") =
        some (mkUserRating "uA" "Ann" 2 "" "s4" 2) ∧
      (addOrUpdateRatingValue (some resubmitDoc) "loc3" "Library" 40 (-88)
        "uA" "Ann" 2 "" "s4" 2 none).averageRating =
        round2 (ratingsAvg (addOrUpdateRatingValue (some resubmitDoc) "loc3"
          "Library" 40 (-88) "uA" "Ann" 2 "" "s4" 2 none).ratings)) ∧
    (addOrUpdateRatingValue (some resubmitDoc) "loc3" "Library" 40 (-88)
      "uA" "Ann" 2 "" "s4" 2 none).averageRating = 7 / 2 := by
  refine ⟨⟨by decide, by decide⟩,
    addOrUpdateRating_resubmit resubmitDoc "loc3" "Library" 40 (-88) "uA"
      "Ann" 2 "" "s4" 2 none (by decide) (by decide), ?_⟩
  simp only [addOrUpdateRatingValue, applyRatingUpdate, resubmitDoc,
    mkUserRating, sumRatings, List.findIdx?]
  norm_num [round2, round_eq]

theorem idLeB_total : ∀ xs ys : List Char, idLeB xs ys = true ∨ idLeB ys xs = true
  | [], _ => Or.inl rfl
  | _ :: _, [] => Or.inr rfl
  | x :: xs, y :: ys => by
    simp only [idLeB]
    rcases Nat.lt_trichotomy x.toNat y.toNat with h | h | h
    · left
      rw [if_pos h]
    · rw [if_neg (by omega), if_neg (by omega), if_neg (by omega),
        if_neg (by omega)]
      exact idLeB_total xs ys
    · right
      rw [if_pos h]

theorem idLeB_trans : ∀ xs ys zs : List Char, idLeB xs ys = true →
    idLeB ys zs = true → idLeB xs zs = true
  | [], _, _ => by
    intro _ _
    rfl
  | x :: xs, [], zs => by
    intro h _
    simp [idLeB] at h
  | x :: xs, y :: ys, [] => by
    intro _ h
    simp [idLeB] at h
  | x :: xs, y :: ys, z :: zs => by
    intro h1 h2
    simp only [idLeB] at h1 h2 ⊢
    by_cases hxy : x.toNat < y.toNat
    · by_cases hyz : y.toNat < z.toNat
      · rw [if_pos (show x.toNat < z.toNat by omega)]
      · by_cases hzy : z.toNat < y.toNat
        · rw [if_neg hyz, if_pos hzy] at h2
          simp at h2
        · rw [if_pos (show x.toNat < z.toNat by omega)]
    · by_cases hyx : y.toNat < x.toNat
      · rw [if_neg hxy, if_pos hyx] at h1
        simp at h1
      · rw [if_neg hxy, if_neg hyx] at h1
        by_cases hyz : y.toNat < z.toNat
        · rw [if_pos (show x.toNat < z.toNat by omega)]
        · by_cases hzy : z.toNat < y.toNat
          · rw [if_neg hyz, if_pos hzy] at h2
            simp at h2
          · rw [if_neg hyz, if_neg hzy] at h2
            rw [if_neg (show ¬x.toNat < z.toNat by omega),
              if_neg (show ¬z.toNat < x.toNat by omega)]
            exact idLeB_trans xs ys zs h1 h2

instance : IsTotal LocationRatingDoc fsOrder := ⟨by
  intro a b
  unfold fsOrder fsBefore docIdLe
  rcases lt_trichotomy a.averageRating b.averageRating with h | h | h
  · right
    simp [h]
  · rcases idLeB_total b.locationId.data a.locationId.data with hid | hid
    · left
      simp [h, hid]
    · right
      simp [h, hid]
  · left
    simp [h]⟩

instance : IsTrans LocationRatingDoc fsOrder := ⟨by
  intro a b c hab hbc
  unfold fsOrder fsBefore docIdLe at hab hbc ⊢
  simp only [Bool.or_eq_true, Bool.and_eq_true, decide_eq_true_eq,
    beq_iff_eq] at hab hbc ⊢
  rcases hab with hab | ⟨hab1, hab2⟩
  · rcases hbc with hbc | ⟨hbc1, hbc2⟩
    · exact Or.inl (lt_trans hbc hab)
    · exact Or.inl (hbc1 ▸ hab)
  · rcases hbc with hbc | ⟨hbc1, hbc2⟩
    · exact Or.inl (by rw [hab1]; exact hbc)
    · exact Or.inr ⟨hab1.trans hbc1, idLeB_trans _ _ _ hbc2 hab2⟩⟩

/-- C8 counterexample: two locations tied at average 4.5, where L1 has 5
ratings and L2 only 2: the claimed order (ties by `totalCount` descending)
puts L1 first, but the code's query order (ties by document id, descending)
returns L2 — the code result differs from the claimed one. -/
theorem getTopRated_ordering_cex :
    (getTopRatedLocations 1 topTieDocs).map (fun d => d.locationId) =
      ["L2"] ∧
    (getTopRatedSpec 1 topTieDocs).map (fun d => d.locationId) = ["L1"] ∧
    getTopRatedLocations 1 topTieDocs ≠ getTopRatedSpec 1 topTieDocs := by
  refine ⟨by decide, by decide, by decide⟩

/-- C8 amended: `getTopRatedLocations` returns the documents sorted by
`averageRating` descending with ties broken by document id descending
(Firestore's implicit `__name__` order follows the direction of the last
`orderBy`); `totalRatings` plays no role. The spec's concrete scenario
(averages L1 4.5 / L2 4.5 / L3 3.0, counts 2 / 5) still returns L2 first,
because the id tiebreak also puts L2 ahead of L1. -/
theorem getTopRated_sorted :
    (∀ (docs : List LocationRatingDoc) (n : Nat),
      List.Sorted fsOrder (getTopRatedLocations n docs)) ∧
    (getTopRatedLocations 1 topExampleDocs).map (fun d => d.locationId) =
      ["L2"] := by
  constructor
  · intro docs n
    exact List.Pairwise.sublist (List.take_sublist n _)
      (List.sorted_insertionSort fsOrder docs)
  · decide

theorem runTxLoop_attempts {T β : Type} (get : Nat → Option (T × Nat))
    (put : Nat → Nat → T → PutResult) (mutate : T → Except β T) :
    ∀ fuel attempt : Nat,
      (runTxLoop get put mutate fuel attempt).2 ≤ attempt + fuel := by
  intro fuel
  induction fuel with
  | zero =>
    intro attempt
    simp [runTxLoop]
  | succ n ih =>
    intro attempt
    simp only [runTxLoop]
    cases hg : get attempt with
    | none =>
      simp only []
      omega
    | some p =>
      obtain ⟨v, ver⟩ := p
      cases hm : mutate v with
      | error b =>
        simp only [hm]
        omega
      | ok v' =>
        simp only [hm]
        cases hp : put attempt ver v' with
        | committed nv =>
          simp only [hp]
          omega
        | conflict =>
          simp only [hp]
          have := ih (attempt + 1)
          omega
        | notFound =>
          simp only [hp]
          omega

theorem runTxLoop_conflict {T β : Type} (get : Nat → Option (T × Nat))
    (put : Nat → Nat → T → PutResult) (mutate : T → Except β T)
    (hget : ∀ i, (get i).isSome = true)
    (hmut : ∀ v, ∃ v', mutate v = .ok v')
    (hput : ∀ i ver v, put i ver v = .conflict) :
    ∀ fuel attempt : Nat, runTxLoop get put mutate fuel attempt =
      (.error .maxRetriesExceeded, attempt + fuel) := by
  intro fuel
  induction fuel with
  | zero =>
    intro attempt
    simp [runTxLoop]
  | succ n ih =>
    intro attempt
    obtain ⟨⟨v, ver⟩, hg⟩ : ∃ p, get attempt = some p :=
      Option.isSome_iff_exists.mp (hget attempt)
    obtain ⟨v', hm⟩ := hmut v
    simp only [runTxLoop, hg, hm, hput]
    rw [ih (attempt + 1)]
    congr 1
    omega

/-- C9 amended: the spec-modelled retry loop (realized by the Firebase
SDK's `runTransaction` and used by join and leave, but not by
`addOrUpdateRating`, which issues one unconditional write) makes at most
`maxRetries` attempts, and when every conditional write conflicts it
terminates with `maxRetriesExceeded`. -/
theorem runTx_bounded {T β : Type} (get : Nat → Option (T × Nat))
    (put : Nat → Nat → T → PutResult) (mutate : T → Except β T)
    (maxRetries : Nat) :
    (runTx maxRetries get put mutate).2 ≤ maxRetries ∧
    ((∀ i, (get i).isSome = true) → (∀ v, ∃ v', mutate v = .ok v') →
      (∀ i ver v, put i ver v = .conflict) →
      runTx maxRetries get put mutate =
        (.error .maxRetriesExceeded, maxRetries)) := by
  constructor
  · have h := runTxLoop_attempts get put mutate maxRetries 0
    simpa [runTx] using h
  · intro h1 h2 h3
    have h := runTxLoop_conflict get put mutate h1 h2 h3 maxRetries 0
    simpa [runTx] using h

/-- Witness for C9's amended theorem: with five retries against the
all-conflict environment, the loop stops after exactly five attempts with
`maxRetriesExceeded`. -/
theorem runTx_bounded_witness :
    (runTx 5 wGet wPut wMut).2 ≤ 5 ∧
    runTx 5 wGet wPut wMut = (.error .maxRetriesExceeded, 5) :=
  ⟨(runTx_bounded wGet wPut wMut 5).1,
    (runTx_bounded wGet wPut wMut 5).2 (fun _ => rfl) (fun v => ⟨v, rfl⟩)
      (fun _ _ _ => rfl)⟩

/-- C9 counterexample: `addOrUpdateRating` is not executed through the
optimistic-concurrency mechanism: at a store whose version moved from 7 to
8 after the snapshot was taken, the compare-and-swap the claim prescribes
reports `Conflict`, yet the code's write commits anyway (bumping the store
to version 9) instead of retrying or aborting. -/
theorem upsert_commits_despite_conflict_cex :
    conditionalPut ratingStD ratingSt7.version
      (addOrUpdateRatingValue (some emptyRatingDoc2) "loc2" "Union" 40 (-88)
        "carol" "Cara" 3 "" "s2" 21 none) = .conflict ∧
    (addOrUpdateRatingStep ratingSt7 ratingStD "loc2" "Union" 40 (-88)
      "carol" "Cara" 3 "" "s2" 21 none).map (fun st => st.version) =
        some 9 ∧
    (addOrUpdateRatingStep ratingSt7 ratingStD "loc2" "Union" 40 (-88)
      "carol" "Cara" 3 "" "s2" 21 none).isSome = true := by
  refine ⟨by decide, by decide, by decide⟩

end StudySync
